import Mathlib

/-!
GitLab issues mirrored as Apple Reminders: the sync pass and its script escaping.

A shallow embedding of `main.go`.  Go strings are modelled by Lean strings (sequences of
Unicode characters; every string the program handles comes out of the JSON decoder and is
therefore valid UTF-8, and the one-byte pattern `"` never occurs inside a multi-byte
encoding, so replacing at the level of characters and of bytes is the same).  A Go result
`(v, err)` is a pair whose second component is `none` for a nil error.

The two outside services are parameters of the embedding:

* `Net` is the tracker's HTTP endpoint together with the JSON decoder;
* `Env` is the application-scripting bridge (`mack.Tell`) together with the logger.
-/

namespace GitlabReminders

/-! ## Pieces of the Go standard library the program calls -/

/-- The scan of Go's `strings.Replace(s, old, new, -1)` for a non-empty `old`: the input is
read left to right, the leftmost occurrence of `old` is replaced by `new`, and the scan
resumes right after that occurrence.  The counter is the number of characters of a matched
occurrence that are still to be passed over. -/
def strings.replaceFrom (old new : List Char) : Nat → List Char → List Char
  | _, [] => []
  | skip + 1, _ :: cs => strings.replaceFrom old new skip cs
  | 0, c :: cs =>
      if old.isPrefixOf (c :: cs) then new ++ strings.replaceFrom old new (old.length - 1) cs
      else c :: strings.replaceFrom old new 0 cs

/-- Go's `strings.ReplaceAll(s, old, new)`: every non-overlapping occurrence of `old` in `s`
is replaced by `new`.  For an empty `old` the replacement is inserted before every character
and at the end. -/
def strings.ReplaceAll (s old new : String) : String :=
  if old = new then s
  else if old.data = [] then ⟨new.data ++ s.data.flatMap (fun c => c :: new.data)⟩
  else ⟨strings.replaceFrom old.data new.data 0 s.data⟩

/-- Go's `unicode.IsSpace`: the characters with the Unicode White_Space property. -/
def unicode.IsSpace (c : Char) : Bool :=
  let n := c.toNat
  (0x09 ≤ n && n ≤ 0x0d) || n == 0x20 || n == 0x85 || n == 0xa0 || n == 0x1680 ||
  (0x2000 ≤ n && n ≤ 0x200a) || n == 0x2028 || n == 0x2029 || n == 0x202f ||
  n == 0x205f || n == 0x3000

/-- Go's `strings.TrimSpace`: the string without its leading and trailing white space. -/
def strings.TrimSpace (s : String) : String :=
  ⟨((s.data.dropWhile unicode.IsSpace).reverse.dropWhile unicode.IsSpace).reverse⟩

/-- The verb `%d` of Go's `fmt` applied to an `int`: decimal digits, with a leading minus
sign for a negative number. -/
def fmt.d : Int → String
  | Int.ofNat n => Nat.repr n
  | Int.negSucc n => "-" ++ Nat.repr (n + 1)

/-! ## Data model -/

/-- The type `GitLabIssue` of the source.  The two time stamps are kept as their RFC 3339
text. -/
structure GitLabIssue where
  ID : Int
  IID : Int
  ProjectID : Int
  Title : String
  Description : String
  State : String
  CreatedAt : String
  UpdatedAt : String
  DueDate : String
  WebURL : String
  Labels : List String
  deriving DecidableEq

/-- The type `Config` of the source. -/
structure Config where
  GitLabToken : String
  GitLabURL : String
  GitLabUsername : String
  ReminderList : String
  PollInterval : Int
  deriving DecidableEq

/-! ## Escaping -/

/-- The function `escapeAppleScriptString` of the source:
`strings.ReplaceAll(s, "\"", "\\\"")`. -/
def escapeAppleScriptString (s : String) : String :=
  strings.ReplaceAll s "\"" "\\\""

/-- Reader of the body of a double-quoted string literal, written from the words of the
specification ("a backslash escapes the following character"): the input starts right after
the opening quote; an unescaped quote closes the literal; a backslash makes the character
after it part of the denoted text.  The result is the denoted text and the input that
follows the closing quote, or `none` when the literal is not closed. -/
def specLexLiteralBody : List Char → Option (List Char × List Char)
  | [] => none
  | c :: rest =>
      if c = '"' then some ([], rest)
      else if c = '\\' then
        match rest with
        | [] => none
        | e :: rest2 => (specLexLiteralBody rest2).map (fun p => (e :: p.1, p.2))
      else (specLexLiteralBody rest).map (fun p => (c :: p.1, p.2))

/-- Reader of a whole string literal, opening quote included (specification side). -/
def specLexLiteral : List Char → Option (List Char × List Char)
  | [] => none
  | c :: rest => if c = '"' then specLexLiteralBody rest else none

/-! ## The two outside services -/

/-- What a script asks the reminders application to do: whether the list `list` holds a
reminder whose name is `name`, or to add a reminder `name` with notes `body` to `list`. -/
inductive Command where
  | query (list name : String)
  | make (list name body : String)
  deriving DecidableEq

/-- A generated script: the text handed to `mack.Tell`, together with the request the text
was generated for.  The scripting engine is outside the program; it is modelled as acting on
the request, the text being what the program really sends. -/
structure Script where
  text : String
  ask : Command
  deriving DecidableEq

/-- The scripting bridge and the logger, over a state `σ` of the outside world.
`Tell app script` is `mack.Tell(app, script)` with its result `(string, error)`;
`Printf msg` is `log.Printf` with the message already formatted. -/
structure Env (σ : Type) where
  Tell : String → Script → σ → (String × Option String) × σ
  Printf : String → σ → σ

/-- An HTTP response as the program reads it: status code, status line, and the result of
`ioutil.ReadAll` on the body. -/
structure Response where
  StatusCode : Int
  Status : String
  Body : String × Option String

/-- The tracker side: the error of `http.NewRequest(method, url, nil)`, the result of
`client.Do` for a request to `url` carrying the header `PRIVATE-TOKEN: token`, and
`json.Unmarshal` into a slice of issues. -/
structure Net where
  NewRequest : String → String → Option String
  Do : String → String → Response × Option String
  Unmarshal : String → List GitLabIssue × Option String

/-! ## The program -/

/-- The local variable `url` of `getAssignedIssues`:
`fmt.Sprintf("%s/api/v4/issues?assignee_username=%s&state=opened", GitLabURL, GitLabUsername)`. -/
def requestURL (config : Config) : String :=
  config.GitLabURL ++ "/api/v4/issues?assignee_username=" ++ config.GitLabUsername ++
    "&state=opened"

/-- The function `getAssignedIssues` of the source. -/
def getAssignedIssues (net : Net) (config : Config) : List GitLabIssue × Option String :=
  let url := requestURL config
  match net.NewRequest "GET" url with
  | some err => ([], some err)
  | none =>
    match net.Do url config.GitLabToken with
    | (_, some err) => ([], some err)
    | (resp, none) =>
      if resp.StatusCode ≠ 200 then
        ([], some ("API request failed with status: " ++ resp.Status))
      else
        match resp.Body with
        | (_, some err) => ([], some err)
        | (body, none) =>
          match net.Unmarshal body with
          | (_, some err) => ([], some err)
          | (issues, none) => (issues, none)

/-- The script built by `reminderExists` (its `fmt.Sprintf`): the list name is interpolated
as it is, the title after `escapeAppleScriptString`. -/
def reminderExistsScript (title list : String) : Script where
  text := "\n\t\ttell application \"Reminders\"\n\t\t\tset myList to list \"" ++ list ++
    "\"\n\t\t\tset matchingReminders to (reminders of myList whose name is \"" ++
    escapeAppleScriptString title ++
    "\")\n\t\t\tif (count of matchingReminders) > 0 then\n\t\t\t\treturn \"true\"" ++
    "\n\t\t\telse\n\t\t\t\treturn \"false\"\n\t\t\tend if\n\t\tend tell\n\t"
  ask := Command.query list title

/-- The function `reminderExists` of the source. -/
def reminderExists {σ : Type} (env : Env σ) (title list : String) (w : σ) :
    (Bool × Option String) × σ :=
  let script := reminderExistsScript title list
  match env.Tell "Reminders" script w with
  | ((_, some err), w1) => ((false, some err), w1)
  | ((result, none), w1) => ((decide (strings.TrimSpace result = "true"), none), w1)

/-- The local variable `title` of `createReminder`: `fmt.Sprintf("#%d: %s", IID, Title)`. -/
def reminderTitle (issue : GitLabIssue) : String :=
  "#" ++ fmt.d issue.IID ++ ": " ++ issue.Title

/-- The local variable `notes` of `createReminder`:
`fmt.Sprintf("%s\n\nURL: %s", Description, WebURL)`. -/
def reminderNotes (issue : GitLabIssue) : String :=
  issue.Description ++ "\n\nURL: " ++ issue.WebURL

/-- The second script built by `createReminder` (its `fmt.Sprintf`): the list name is
interpolated as it is, title and notes after `escapeAppleScriptString`. -/
def createReminderScript (list title notes : String) : Script where
  text := "\n\t\ttell application \"Reminders\"\n\t\t\ttell list \"" ++ list ++
    "\"\n\t\t\t\tmake new reminder with properties \x7bname:\"" ++
    escapeAppleScriptString title ++ "\", body:\"" ++ escapeAppleScriptString notes ++
    "\"\x7d\n\t\t\tend tell\n\t\tend tell\n\t"
  ask := Command.make list title notes

/-- The function `createReminder` of the source; the result is its `error`. -/
def createReminder {σ : Type} (env : Env σ) (issue : GitLabIssue) (list : String) (w : σ) :
    Option String × σ :=
  let title := reminderTitle issue
  let notes := reminderNotes issue
  match reminderExists env title list w with
  | ((_, some err), w1) => (some err, w1)
  | ((true, none), w1) =>
    (none, env.Printf ("Reminder already exists for issue #" ++ fmt.d issue.IID) w1)
  | ((false, none), w1) =>
    let script := createReminderScript list title notes
    match env.Tell "Reminders" script w1 with
    | ((_, some err), w2) => (some err, w2)
    | ((_, none), w2) =>
      (none, env.Printf ("Created reminder for issue #" ++ fmt.d issue.IID ++ ": " ++
        issue.Title) w2)

/-- The `for ... range issues` loop of `syncIssues`. -/
def syncLoop {σ : Type} (env : Env σ) (list : String) : List GitLabIssue → σ → σ
  | [], w => w
  | issue :: rest, w =>
    match createReminder env issue list w with
    | (some err, w1) =>
      syncLoop env list rest
        (env.Printf ("Error creating reminder for issue #" ++ fmt.d issue.IID ++ ": " ++
          err) w1)
    | (none, w1) => syncLoop env list rest w1

/-- The function `syncIssues` of the source. -/
def syncIssues {σ : Type} (net : Net) (env : Env σ) (config : Config) (w : σ) : σ :=
  match getAssignedIssues net config with
  | (_, some err) => env.Printf ("Error fetching GitLab issues: " ++ err) w
  | (issues, none) =>
    syncLoop env config.ReminderList issues
      (env.Printf ("Found " ++ fmt.d issues.length ++ " assigned issues") w)

/-! ## A model of the reminders application -/

/-- A reminder of the configured list: its name and its notes. -/
structure Reminder where
  name : String
  body : String
  deriving DecidableEq

/-- The outside world of a sync pass: the reminders of the configured list, every script
handed to the scripting bridge so far (oldest first), and the log. -/
structure World where
  reminders : List Reminder
  calls : List Script
  logs : List String
  deriving DecidableEq

/-- Whether some reminder of the store has exactly the name `name`. -/
def hasTitle (store : List Reminder) (name : String) : Bool :=
  store.any (fun r => r.name == name)

/-- The scripting bridge over `World`.  `fails n` says that the `n`-th call of the bridge
(counted from 0 over the life of the world) fails; a failing call changes nothing in the
store.  A successful query answers `"true"` or `"false"` according to whether some reminder
has exactly the asked name; a successful `make` appends the reminder. -/
def World.Tell (fails : Nat → Bool) (_app : String) (script : Script) (w : World) :
    (String × Option String) × World :=
  let w1 : World := { w with calls := w.calls ++ [script] }
  if fails w.calls.length then (("", some "execution error"), w1)
  else
    match script.ask with
    | Command.query _ name => ((if hasTitle w.reminders name then "true" else "false", none), w1)
    | Command.make _ name body =>
      (("", none), { w1 with reminders := w1.reminders ++ [⟨name, body⟩] })

/-- The outside world as an `Env`: the bridge above and a logger that appends to the log. -/
def World.env (fails : Nat → Bool) : Env World where
  Tell := World.Tell fails
  Printf := fun msg w => { w with logs := w.logs ++ [msg] }

/-- A bridge on which no call fails. -/
def noFailure : Nat → Bool := fun _ => false

/-- One turn of the loop of `syncIssues` over the model: `createReminder` for the issue and,
when it returns an error, the log line for it. -/
def World.turn (fails : Nat → Bool) (list : String) (issue : GitLabIssue) (w : World) :
    World :=
  syncLoop (World.env fails) list [issue] w

/-- A bridge that answers every call with the text `result` and no error, over a world
without state. -/
def constEnv (result : String) : Env Unit where
  Tell := fun _ _ w => ((result, none), w)
  Printf := fun _ w => w

/-- The reading of an existence result as the specification words it: the result, trimmed
of surrounding white space and with letter case ignored, is the token `true`. -/
def specIsTrueToken (r : String) : Bool :=
  decide ((strings.TrimSpace r).data.map Char.toLower = "true".data)

/-- What escaping does to one character: a double quote becomes backslash, double quote;
any other character stays. -/
def escapeChar (c : Char) : List Char :=
  if c = '"' then ['\\', '"'] else [c]

/-! ## Sample inputs -/

/-- An open issue of project 1 with the given stable id, project-local number and title. -/
def sampleIssue (id iid : Int) (title : String) : GitLabIssue where
  ID := id
  IID := iid
  ProjectID := 1
  Title := title
  Description := "details"
  State := "opened"
  CreatedAt := "2024-01-01T00:00:00Z"
  UpdatedAt := "2024-01-02T00:00:00Z"
  DueDate := ""
  WebURL := "https://gitlab.example/p/-/issues/" ++ fmt.d iid
  Labels := ["bug"]

/-- A configuration whose reminder list is called `Work`. -/
def sampleConfig : Config where
  GitLabToken := "glpat-token"
  GitLabURL := "https://gitlab.example"
  GitLabUsername := "me"
  ReminderList := "Work"
  PollInterval := 5

/-- A tracker that answers every request with the given status and, on decoding the body,
yields the given issues. -/
def sampleNet (code : Int) (status : String) (issues : List GitLabIssue) : Net where
  NewRequest := fun _ _ => none
  Do := fun _ _ => (⟨code, status, ("[...]", none)⟩, none)
  Unmarshal := fun _ => (issues, none)

/-- Three issues with three different titles. -/
def sampleBatch : List GitLabIssue :=
  [sampleIssue 101 1 "Fix crash", sampleIssue 102 2 "Write docs", sampleIssue 103 3 "Ship"]

/-- Two issues of different projects with the same project-local number and title, hence
the same derived reminder title. -/
def sampleTwins : List GitLabIssue :=
  [sampleIssue 101 1 "Fix crash", { sampleIssue 202 1 "Fix crash" with ProjectID := 2 }]

/-- The failure pattern in which only the fourth call of the bridge fails; over
`sampleBatch` and an empty store that call is the creation for the second issue. -/
def fourthCallFails : Nat → Bool := fun n => n == 3

/-- A world with an empty store, no call made and nothing logged. -/
def emptyWorld : World := ⟨[], [], []⟩

/-- The names asked for by the `make` commands among a list of scripts, in order. -/
def madeNames : List Script → List String
  | [] => []
  | s :: rest =>
    match s.ask with
    | Command.make _ name _ => name :: madeNames rest
    | Command.query _ _ => madeNames rest

/-- The names asked for by the `make` commands that did not fail among a list of scripts,
in order: the first script of the list is call number `n` of the bridge, the next one call
number `n + 1`, and so on. -/
def succeededMakes (fails : Nat → Bool) : Nat → List Script → List String
  | _, [] => []
  | n, s :: rest =>
    match s.ask with
    | Command.make _ name _ =>
      if fails n then succeededMakes fails (n + 1) rest
      else name :: succeededMakes fails (n + 1) rest
    | Command.query _ _ => succeededMakes fails (n + 1) rest

/-- The names asked for by the `make` commands that failed among a list of scripts, in
order, the first script of the list being call number `n` of the bridge. -/
def failedMakes (fails : Nat → Bool) : Nat → List Script → List String
  | _, [] => []
  | n, s :: rest =>
    match s.ask with
    | Command.make _ name _ =>
      if fails n then name :: failedMakes fails (n + 1) rest
      else failedMakes fails (n + 1) rest
    | Command.query _ _ => failedMakes fails (n + 1) rest

/-- The failure pattern in which only the second call of the bridge fails; over
`sampleTwins` and an empty store that call is the creation for the first issue. -/
def secondCallFails : Nat → Bool := fun n => n == 1

/-- The names asked about by the existence queries among a list of scripts, in order. -/
def queriedNames : List Script → List String
  | [] => []
  | s :: rest =>
    match s.ask with
    | Command.query _ name => name :: queriedNames rest
    | Command.make _ _ _ => queriedNames rest

end GitlabReminders

namespace GitlabReminders

/-! ## Escaping: helper lemmas -/

theorem flatMap_escape_cons (c : Char) (cs : List Char) :
    (c :: cs).flatMap escapeChar = escapeChar c ++ cs.flatMap escapeChar := by
  simp only [List.flatMap_cons]

theorem replaceFrom_quote (s : List Char) :
    strings.replaceFrom ['"'] ['\\', '"'] 0 s = s.flatMap escapeChar := by
  induction s with
  | nil => rfl
  | cons c cs ih =>
    rw [flatMap_escape_cons, ← ih]
    by_cases h : c = '"'
    · subst h
      simp [strings.replaceFrom, escapeChar, List.isPrefixOf]
    · have hp : List.isPrefixOf ['"'] (c :: cs) = false := by
        simp only [List.isPrefixOf, Bool.and_true, beq_eq_false_iff_ne, ne_eq]
        exact fun e => h e.symm
      simp only [strings.replaceFrom, hp, escapeChar, if_neg h]
      rfl

theorem escape_data (s : String) :
    (escapeAppleScriptString s).data = s.data.flatMap escapeChar := by
  have h1 : ("\"" : String) ≠ "\\\"" := by decide
  have h2 : ("\"" : String).data ≠ [] := by decide
  simp only [escapeAppleScriptString, strings.ReplaceAll, if_neg h1, if_neg h2]
  exact replaceFrom_quote s.data


theorem quote_preceded (s : List Char) :
    ∀ pre post, s.flatMap escapeChar = pre ++ '"' :: post → ∃ pre', pre = pre' ++ ['\\'] := by
  induction s with
  | nil => intro pre post h; simp at h
  | cons c cs ih =>
    intro pre post h
    rw [flatMap_escape_cons] at h
    by_cases hc : c = '"'
    · subst hc
      match pre, h with
      | [], h => simp [escapeChar] at h
      | [x], h =>
        simp only [escapeChar, if_true, List.cons_append, List.nil_append, List.cons.injEq] at h
        exact ⟨[], by simp [← h.1]⟩
      | x :: y :: pre2, h =>
        simp only [escapeChar, if_true, List.cons_append, List.nil_append, List.cons.injEq] at h
        obtain ⟨p, hp⟩ := ih pre2 post h.2.2
        exact ⟨x :: y :: p, by simp [hp]⟩
    · match pre, h with
      | [], h =>
        simp only [escapeChar, if_neg hc, List.cons_append, List.nil_append,
          List.cons.injEq] at h
        exact absurd h.1 hc
      | x :: pre2, h =>
        simp only [escapeChar, if_neg hc, List.cons_append, List.nil_append,
          List.cons.injEq] at h
        obtain ⟨p, hp⟩ := ih pre2 post h.2
        exact ⟨x :: p, by simp [hp]⟩

theorem escaped_head_ne_quote (t : List Char) :
    List.isPrefixOf ['"'] (t.flatMap escapeChar) = false := by
  cases t with
  | nil => rfl
  | cons c cs =>
    rw [flatMap_escape_cons]
    by_cases hc : c = '"'
    · subst hc; simp [escapeChar, List.isPrefixOf]
    · simp only [escapeChar, if_neg hc, List.cons_append, List.nil_append, List.isPrefixOf,
        Bool.and_true, beq_eq_false_iff_ne, ne_eq]
      exact fun e => hc e.symm

theorem unescape_escaped (s : List Char) :
    strings.replaceFrom ['\\', '"'] ['"'] 0 (s.flatMap escapeChar) = s := by
  induction s with
  | nil => rfl
  | cons c cs ih =>
    rw [flatMap_escape_cons]
    by_cases hc : c = '"'
    · subst hc
      simp [strings.replaceFrom, escapeChar, List.isPrefixOf, ih]
    · have h := escaped_head_ne_quote cs
      have h2 : List.isPrefixOf ['\\', '"'] (c :: cs.flatMap escapeChar) = false := by
        rw [List.isPrefixOf]
        simp [h]
      simp only [escapeChar, if_neg hc, List.cons_append, List.nil_append,
        strings.replaceFrom, h2, ih]
      simp

theorem escaped_length (s : List Char) :
    (s.flatMap escapeChar).length = s.length + s.count '"' := by
  induction s with
  | nil => rfl
  | cons c cs ih =>
    rw [flatMap_escape_cons, List.length_append, ih]
    by_cases hc : c = '"'
    · subst hc
      simp [escapeChar]
      omega
    · have : ¬ ('"' = c) := fun e => hc e.symm
      simp [escapeChar, hc, List.count_cons, this]
      omega


/-! ## The literal reader: helper lemmas -/

theorem lex_quote (rest : List Char) :
    specLexLiteralBody ('"' :: rest) = some ([], rest) := by
  cases rest <;> rw [specLexLiteralBody, if_pos rfl]

theorem lex_backslash (e : Char) (rest : List Char) :
    specLexLiteralBody ('\\' :: e :: rest) =
      (specLexLiteralBody rest).map (fun p => (e :: p.1, p.2)) := by
  rw [specLexLiteralBody, if_neg (by decide), if_pos rfl]

theorem lex_backslash_end : specLexLiteralBody ['\\'] = none := by
  rw [specLexLiteralBody, if_neg (by decide), if_pos rfl]

theorem lex_plain (c : Char) (rest : List Char) (hq : c ≠ '"') (hb : c ≠ '\\') :
    specLexLiteralBody (c :: rest) =
      (specLexLiteralBody rest).map (fun p => (c :: p.1, p.2)) := by
  cases rest <;> (conv_lhs => rw [specLexLiteralBody]) <;> rw [if_neg hq, if_neg hb]

theorem lex_escaped_of_no_backslash (s rest : List Char) (h : '\\' ∉ s) :
    specLexLiteralBody (s.flatMap escapeChar ++ '"' :: rest) = some (s, rest) := by
  induction s with
  | nil => exact lex_quote rest
  | cons c cs ih =>
    have hc : c ≠ '\\' := fun e => h (by simp [e])
    have hcs : '\\' ∉ cs := fun e => h (by simp [e])
    rw [flatMap_escape_cons]
    by_cases hq : c = '"'
    · subst hq
      simp only [escapeChar, if_true, List.cons_append, List.nil_append]
      rw [lex_backslash, ih hcs]
      rfl
    · simp only [escapeChar, if_neg hq, List.cons_append, List.nil_append]
      rw [lex_plain c _ hq hc, ih hcs]
      rfl

theorem lex_consumes : ∀ (x v r : List Char),
    specLexLiteralBody x = some (v, r) → r.length < x.length
  | [], v, r, h => by simp [specLexLiteralBody] at h
  | [c], v, r, h => by
    by_cases hq : c = '"'
    · subst hq
      rw [lex_quote] at h
      simp only [Option.some.injEq, Prod.mk.injEq] at h
      simp [← h.2]
    · by_cases hb : c = '\\'
      · subst hb
        rw [lex_backslash_end] at h
        simp at h
      · rw [lex_plain c _ hq hb] at h
        simp [specLexLiteralBody] at h
  | c :: e :: x2, v, r, h => by
    by_cases hq : c = '"'
    · subst hq
      rw [lex_quote] at h
      simp only [Option.some.injEq, Prod.mk.injEq] at h
      simp [← h.2]
    · by_cases hb : c = '\\'
      · subst hb
        rw [lex_backslash] at h
        simp only [Option.map_eq_some', Prod.mk.injEq] at h
        obtain ⟨⟨v2, r2⟩, h1, -, h3⟩ := h
        have := lex_consumes x2 v2 r2 h1
        simp only at h3
        subst h3
        simp only [List.length_cons]
        omega
      · rw [lex_plain c _ hq hb] at h
        simp only [Option.map_eq_some', Prod.mk.injEq] at h
        obtain ⟨⟨v2, r2⟩, h1, -, h3⟩ := h
        have := lex_consumes (e :: x2) v2 r2 h1
        simp only at h3
        subst h3
        simp only [List.length_cons] at this ⊢
        omega


theorem lex_map_eq_some (e : Char) (x v r : List Char)
    (h : (specLexLiteralBody x).map (fun p => (e :: p.1, p.2)) = some (v, r)) :
    ∃ v2, v = e :: v2 ∧ specLexLiteralBody x = some (v2, r) := by
  simp only [Option.map_eq_some', Prod.mk.injEq] at h
  obtain ⟨⟨v2, r2⟩, h1, h2, h3⟩ := h
  simp only at h2 h3
  subst h3
  exact ⟨v2, h2.symm, h1⟩

theorem lex_escaped_bound (n : Nat) : ∀ (u v rest : List Char), u.length = n →
    specLexLiteralBody (u.flatMap escapeChar ++ '"' :: rest) = some (v, rest) →
    v.length ≤ u.length := by
  induction n using Nat.strong_induction_on with
  | _ n ih =>
    intro u v rest hn h
    match u, hn, h with
    | [], _, h =>
      simp only [List.flatMap_nil, List.nil_append] at h
      rw [lex_quote] at h
      simp only [Option.some.injEq, Prod.mk.injEq] at h
      simp [← h.1]
    | c :: t, hn, h =>
      rw [flatMap_escape_cons] at h
      by_cases hq : c = '"'
      · subst hq
        simp only [escapeChar, if_true, List.cons_append, List.nil_append] at h
        rw [lex_backslash] at h
        obtain ⟨v2, hv, h2⟩ := lex_map_eq_some _ _ _ _ h
        have := ih t.length (by simp at hn; omega) t v2 rest rfl h2
        simp [hv]
        omega
      · simp only [escapeChar, if_neg hq, List.cons_append, List.nil_append] at h
        by_cases hb : c = '\\'
        · subst hb
          match t, hn, h with
          | [], _, h =>
            simp only [List.flatMap_nil, List.nil_append] at h
            rw [lex_backslash] at h
            obtain ⟨v2, -, h2⟩ := lex_map_eq_some _ _ _ _ h
            exact absurd (lex_consumes _ _ _ h2) (lt_irrefl _)
          | d :: t2, hn, h =>
            rw [flatMap_escape_cons] at h
            by_cases hd : d = '"'
            · subst hd
              simp only [escapeChar, if_true, List.cons_append, List.nil_append] at h
              rw [lex_backslash, lex_quote] at h
              simp only [Option.map_some', Option.some.injEq, Prod.mk.injEq] at h
              have hl := congrArg List.length h.2
              rw [List.length_append, List.length_cons] at hl
              omega
            · simp only [escapeChar, if_neg hd, List.cons_append, List.nil_append] at h
              rw [lex_backslash] at h
              obtain ⟨v2, hv, h2⟩ := lex_map_eq_some _ _ _ _ h
              have := ih t2.length (by simp at hn; omega) t2 v2 rest rfl h2
              simp [hv]
              omega
        · rw [lex_plain c _ hq hb] at h
          obtain ⟨v2, hv, h2⟩ := lex_map_eq_some _ _ _ _ h
          have := ih t.length (by simp at hn; omega) t v2 rest rfl h2
          simp [hv]
          omega

theorem no_backslash_of_lex_escaped (s rest : List Char)
    (h : specLexLiteralBody (s.flatMap escapeChar ++ '"' :: rest) = some (s, rest)) :
    '\\' ∉ s := by
  induction s with
  | nil => simp
  | cons c t ih =>
    rw [flatMap_escape_cons] at h
    by_cases hq : c = '"'
    · subst hq
      simp only [escapeChar, if_true, List.cons_append, List.nil_append] at h
      rw [lex_backslash] at h
      obtain ⟨v2, hv, h2⟩ := lex_map_eq_some _ _ _ _ h
      simp only [List.cons.injEq, true_and] at hv
      subst hv
      have := ih h2
      simp only [List.mem_cons, not_or]
      exact ⟨by decide, this⟩
    · simp only [escapeChar, if_neg hq, List.cons_append, List.nil_append] at h
      by_cases hb : c = '\\'
      · subst hb
        exfalso
        match t, h with
        | [], h =>
          simp only [List.flatMap_nil, List.nil_append] at h
          rw [lex_backslash] at h
          obtain ⟨v2, hv, -⟩ := lex_map_eq_some _ _ _ _ h
          simp at hv
        | d :: t2, h =>
          rw [flatMap_escape_cons] at h
          by_cases hd : d = '"'
          · subst hd
            simp only [escapeChar, if_true, List.cons_append, List.nil_append] at h
            rw [lex_backslash, lex_quote] at h
            simp at h
          · simp only [escapeChar, if_neg hd, List.cons_append, List.nil_append] at h
            rw [lex_backslash] at h
            obtain ⟨v2, hv, h2⟩ := lex_map_eq_some _ _ _ _ h
            simp only [List.cons.injEq] at hv
            have hb2 := lex_escaped_bound t2.length t2 v2 rest rfl h2
            rw [← hv.2] at hb2
            simp at hb2
      · rw [lex_plain c _ hq hb] at h
        obtain ⟨v2, hv, h2⟩ := lex_map_eq_some _ _ _ _ h
        simp only [List.cons.injEq, true_and] at hv
        subst hv
        have := ih h2
        simp only [List.mem_cons, not_or]
        exact ⟨fun e => hb e.symm, this⟩


/-! ## The sync pass over the model of the reminders application: helper lemmas -/

theorem trimSpace_true : strings.TrimSpace "true" = "true" := by decide

theorem trimSpace_false : strings.TrimSpace "false" ≠ "true" := by decide

theorem reminderExists_world (fails : Nat → Bool) (title list : String) (w : World) :
    reminderExists (World.env fails) title list w =
      (if fails w.calls.length then (false, some "execution error")
        else (hasTitle w.reminders title, none),
       { w with calls := w.calls ++ [reminderExistsScript title list] }) := by
  unfold reminderExists
  simp only [World.env, World.Tell]
  by_cases hf : fails w.calls.length = true
  · simp [hf]
  · simp only [hf, Bool.false_eq_true, if_false, reminderExistsScript]
    by_cases ht : hasTitle w.reminders title = true
    · simp [ht, trimSpace_true]
    · simp [ht, trimSpace_false]

/-- The world after `createReminder` for one issue, and its error, in the four possible
courses of the call. -/
theorem createReminder_world (fails : Nat → Bool) (issue : GitLabIssue) (list : String)
    (w : World) :
    createReminder (World.env fails) issue list w =
      if fails w.calls.length then
        (some "execution error",
          ⟨w.reminders, w.calls ++ [reminderExistsScript (reminderTitle issue) list], w.logs⟩)
      else if hasTitle w.reminders (reminderTitle issue) then
        (none,
          ⟨w.reminders, w.calls ++ [reminderExistsScript (reminderTitle issue) list],
            w.logs ++ ["Reminder already exists for issue #" ++ fmt.d issue.IID]⟩)
      else if fails (w.calls.length + 1) then
        (some "execution error",
          ⟨w.reminders,
            w.calls ++ [reminderExistsScript (reminderTitle issue) list,
              createReminderScript list (reminderTitle issue) (reminderNotes issue)],
            w.logs⟩)
      else
        (none,
          ⟨w.reminders ++ [⟨reminderTitle issue, reminderNotes issue⟩],
            w.calls ++ [reminderExistsScript (reminderTitle issue) list,
              createReminderScript list (reminderTitle issue) (reminderNotes issue)],
            w.logs ++ ["Created reminder for issue #" ++ fmt.d issue.IID ++ ": " ++
              issue.Title]⟩) := by
  unfold createReminder
  simp only [reminderExists_world]
  by_cases hf : fails w.calls.length = true
  · simp [hf]
  · simp only [hf, Bool.false_eq_true, if_false]
    by_cases ht : hasTitle w.reminders (reminderTitle issue) = true
    · simp [ht, World.env]
    · simp only [ht, Bool.false_eq_true, if_false]
      have ht2 : hasTitle w.reminders (reminderTitle issue) = false := by simpa using ht
      simp only [ht2, World.env, World.Tell, List.length_append, List.length_singleton]
      by_cases hg : fails (w.calls.length + 1) = true
      · simp [hg]
      · simp [hg, createReminderScript]


theorem syncLoop_cons_turn (fails : Nat → Bool) (list : String) (issue : GitLabIssue)
    (rest : List GitLabIssue) (w : World) :
    syncLoop (World.env fails) list (issue :: rest) w =
      syncLoop (World.env fails) list rest (World.turn fails list issue w) := by
  simp only [World.turn, syncLoop]
  split <;> rfl

theorem syncLoop_append_world (fails : Nat → Bool) (list : String)
    (pre post : List GitLabIssue) : ∀ w : World,
    syncLoop (World.env fails) list (pre ++ post) w =
      syncLoop (World.env fails) list post (syncLoop (World.env fails) list pre w) := by
  induction pre with
  | nil => intro w; rfl
  | cons i pre ih =>
    intro w
    rw [List.cons_append, syncLoop_cons_turn, syncLoop_cons_turn, ih]

/-- The three possible outcomes of one turn of the loop. -/
theorem turn_outcome (fails : Nat → Bool) (list : String) (issue : GitLabIssue) (w : World) :
    ((World.turn fails list issue w).reminders = w.reminders ∧
      (World.turn fails list issue w).calls =
        w.calls ++ [reminderExistsScript (reminderTitle issue) list] ∧
      (fails w.calls.length = true ∨ hasTitle w.reminders (reminderTitle issue) = true)) ∨
    ((World.turn fails list issue w).reminders = w.reminders ∧
      (World.turn fails list issue w).calls =
        w.calls ++ [reminderExistsScript (reminderTitle issue) list,
          createReminderScript list (reminderTitle issue) (reminderNotes issue)] ∧
      fails w.calls.length = false ∧ hasTitle w.reminders (reminderTitle issue) = false ∧
      fails (w.calls.length + 1) = true) ∨
    ((World.turn fails list issue w).reminders =
        w.reminders ++ [⟨reminderTitle issue, reminderNotes issue⟩] ∧
      (World.turn fails list issue w).calls =
        w.calls ++ [reminderExistsScript (reminderTitle issue) list,
          createReminderScript list (reminderTitle issue) (reminderNotes issue)] ∧
      fails w.calls.length = false ∧ hasTitle w.reminders (reminderTitle issue) = false ∧
      fails (w.calls.length + 1) = false) := by
  simp only [World.turn, syncLoop, createReminder_world]
  by_cases hf : fails w.calls.length = true
  · simp [hf, World.env]
  · by_cases ht : hasTitle w.reminders (reminderTitle issue) = true
    · simp [hf, ht]
    · by_cases hg : fails (w.calls.length + 1) = true
      · simp [hf, ht, hg, World.env]
      · simp [hf, ht, hg]

theorem hasTitle_append (a b : List Reminder) (t : String) :
    hasTitle (a ++ b) t = (hasTitle a t || hasTitle b t) := by
  simp [hasTitle]

theorem hasTitle_eq_false_iff (a : List Reminder) (t : String) :
    hasTitle a t = false ↔ t ∉ a.map (fun r => r.name) := by
  simp [hasTitle]

theorem madeNames_append (a b : List Script) :
    madeNames (a ++ b) = madeNames a ++ madeNames b := by
  induction a with
  | nil => rfl
  | cons x a ih =>
    simp only [List.cons_append, madeNames]
    split <;> simp [ih]

theorem queriedNames_append (a b : List Script) :
    queriedNames (a ++ b) = queriedNames a ++ queriedNames b := by
  induction a with
  | nil => rfl
  | cons x a ih =>
    simp only [List.cons_append, queriedNames]
    split <;> simp [ih]


/-- What a run of the loop does to the world, for any pattern of failures: scripts are only
appended to the record of calls, reminders are only appended to the store, there is one
existence query per issue, in order, and the reminders added have pairwise different names,
none of which was in the store before. -/
theorem syncLoop_world (fails : Nat → Bool) (list : String) :
    ∀ (issues : List GitLabIssue) (w : World), ∃ scripts added,
      (syncLoop (World.env fails) list issues w).calls = w.calls ++ scripts ∧
      (syncLoop (World.env fails) list issues w).reminders = w.reminders ++ added ∧
      queriedNames scripts = issues.map reminderTitle ∧
      (added.map (fun r => r.name)).Nodup ∧
      (∀ r ∈ added, hasTitle w.reminders r.name = false) ∧
      (∀ r ∈ added, ∃ i ∈ issues, r = ⟨reminderTitle i, reminderNotes i⟩) ∧
      ((∀ n, fails n = false) → madeNames scripts = added.map (fun r => r.name)) ∧
      added.map (fun r => r.name) = succeededMakes fails w.calls.length scripts ∧
      (∀ t ∈ madeNames scripts, hasTitle w.reminders t = false) := by
  intro issues
  induction issues with
  | nil =>
    intro w
    exact ⟨[], [], by simp [syncLoop], by simp [syncLoop], rfl, by simp, by simp, by simp,
      fun _ => rfl, rfl, by simp [madeNames]⟩
  | cons i rest ih =>
    intro w
    rw [syncLoop_cons_turn]
    obtain ⟨scripts, added, h1, h2, h3, h4, h5, h6, h7, h8, h9⟩ :=
      ih (World.turn fails list i w)
    rcases turn_outcome fails list i w with ⟨hr, hc, _⟩ | ⟨hr, hc, hf, ht, hg⟩ |
      ⟨hr, hc, _, ht, hg⟩
    · refine ⟨reminderExistsScript (reminderTitle i) list :: scripts, added, ?_, ?_, ?_,
        h4, ?_, ?_, ?_, ?_, ?_⟩
      · rw [h1, hc]; simp
      · rw [h2, hr]
      · simp [queriedNames, reminderExistsScript, h3]
      · intro r hrm; simpa [hr] using h5 r hrm
      · intro r hrm
        obtain ⟨j, hj, e⟩ := h6 r hrm
        exact ⟨j, List.mem_cons_of_mem _ hj, e⟩
      · intro hall
        simp [madeNames, reminderExistsScript, h7 hall]
      · rw [h8, hc]
        simp [succeededMakes, reminderExistsScript]
      · intro t htm
        have htm2 : t ∈ madeNames scripts := by
          simpa [madeNames, reminderExistsScript] using htm
        simpa [hr] using h9 t htm2
    · refine ⟨reminderExistsScript (reminderTitle i) list ::
          createReminderScript list (reminderTitle i) (reminderNotes i) :: scripts, added,
        ?_, ?_, ?_, h4, ?_, ?_, ?_, ?_, ?_⟩
      · rw [h1, hc]; simp
      · rw [h2, hr]
      · simp [queriedNames, reminderExistsScript, createReminderScript, h3]
      · intro r hrm; simpa [hr] using h5 r hrm
      · intro r hrm
        obtain ⟨j, hj, e⟩ := h6 r hrm
        exact ⟨j, List.mem_cons_of_mem _ hj, e⟩
      · intro hall
        rw [hall] at hg
        exact absurd hg (by decide)
      · rw [h8, hc]
        simp [succeededMakes, reminderExistsScript, createReminderScript, hg]
      · intro t htm
        have htm2 : t = reminderTitle i ∨ t ∈ madeNames scripts := by
          simpa [madeNames, reminderExistsScript, createReminderScript] using htm
        rcases htm2 with e | htm3
        · rw [e]; exact ht
        · simpa [hr] using h9 t htm3
    · refine ⟨reminderExistsScript (reminderTitle i) list ::
          createReminderScript list (reminderTitle i) (reminderNotes i) :: scripts,
        ⟨reminderTitle i, reminderNotes i⟩ :: added, ?_, ?_, ?_, ?_, ?_, ?_, ?_, ?_, ?_⟩
      · rw [h1, hc]; simp
      · rw [h2, hr]; simp
      · simp [queriedNames, reminderExistsScript, createReminderScript, h3]
      · rw [List.map_cons, List.nodup_cons]
        refine ⟨?_, h4⟩
        intro hmem
        obtain ⟨r, hrm, hrn⟩ := List.mem_map.1 hmem
        have := h5 r hrm
        rw [hr, hasTitle_append, Bool.or_eq_false_iff] at this
        have h8 := this.2
        simp [hasTitle] at h8
        exact h8 hrn.symm
      · intro r hrm
        rcases List.mem_cons.1 hrm with e | hrm2
        · rw [e]; exact ht
        · have := h5 r hrm2
          rw [hr, hasTitle_append, Bool.or_eq_false_iff] at this
          exact this.1
      · intro r hrm
        rcases List.mem_cons.1 hrm with e | hrm2
        · exact ⟨i, List.mem_cons_self _ _, e⟩
        · obtain ⟨j, hj, e⟩ := h6 r hrm2
          exact ⟨j, List.mem_cons_of_mem _ hj, e⟩
      · intro hall
        simp [madeNames, reminderExistsScript, createReminderScript, h7 hall]
      · rw [List.map_cons, h8, hc]
        simp [succeededMakes, reminderExistsScript, createReminderScript, hg]
      · intro t htm
        have htm2 : t = reminderTitle i ∨ t ∈ madeNames scripts := by
          simpa [madeNames, reminderExistsScript, createReminderScript] using htm
        rcases htm2 with e | htm3
        · rw [e]; exact ht
        · have := h9 t htm3
          rw [hr, hasTitle_append, Bool.or_eq_false_iff] at this
          exact this.1


theorem turn_logs_irrelevant (fails : Nat → Bool) (list : String) (issue : GitLabIssue)
    (w : World) (logs : List String) :
    ∃ logs2, World.turn fails list issue { w with logs := logs } =
      { World.turn fails list issue w with logs := logs2 } := by
  simp only [World.turn, syncLoop, createReminder_world]
  by_cases hf : fails w.calls.length = true
  · simp [hf, World.env]
  · by_cases ht : hasTitle w.reminders (reminderTitle issue) = true
    · simp [hf, ht]
    · by_cases hg : fails (w.calls.length + 1) = true
      · simp [hf, ht, hg, World.env]
      · simp [hf, ht, hg]

/-- The log plays no part in what a run of the loop does to the store and to the record of
calls. -/
theorem syncLoop_logs_irrelevant (fails : Nat → Bool) (list : String) :
    ∀ (issues : List GitLabIssue) (w : World) (logs : List String),
      (syncLoop (World.env fails) list issues { w with logs := logs }).reminders =
        (syncLoop (World.env fails) list issues w).reminders ∧
      (syncLoop (World.env fails) list issues { w with logs := logs }).calls =
        (syncLoop (World.env fails) list issues w).calls := by
  intro issues
  induction issues with
  | nil => intro w logs; simp [syncLoop]
  | cons i rest ih =>
    intro w logs
    rw [syncLoop_cons_turn, syncLoop_cons_turn]
    obtain ⟨logs2, h⟩ := turn_logs_irrelevant fails list i w logs
    rw [h]
    exact ih _ logs2

theorem syncIssues_world_fetched (net : Net) (config : Config) (fails : Nat → Bool)
    (issues : List GitLabIssue) (w : World)
    (h : getAssignedIssues net config = (issues, none)) :
    syncIssues net (World.env fails) config w =
      syncLoop (World.env fails) config.ReminderList issues
        { w with logs := w.logs ++ ["Found " ++ fmt.d issues.length ++ " assigned issues"] } := by
  simp [syncIssues, h, World.env]

theorem syncIssues_fetch_error {σ : Type} (net : Net) (env : Env σ) (config : Config)
    (l : List GitLabIssue) (err : String) (w : σ)
    (h : getAssignedIssues net config = (l, some err)) :
    syncIssues net env config w = env.Printf ("Error fetching GitLab issues: " ++ err) w := by
  simp [syncIssues, h]

/-- A turn for an issue whose own calls succeed leaves a reminder with its title. -/
theorem turn_hasTitle (fails : Nat → Bool) (list : String) (issue : GitLabIssue) (w : World)
    (h1 : fails w.calls.length = false)
    (h2 : hasTitle w.reminders (reminderTitle issue) = false →
      fails (w.calls.length + 1) = false) :
    hasTitle (World.turn fails list issue w).reminders (reminderTitle issue) = true := by
  rcases turn_outcome fails list issue w with ⟨hr, _, hf | ht⟩ | ⟨_, _, _, ht, hg⟩ |
    ⟨hr, _, _, _, _⟩
  · rw [h1] at hf; exact absurd hf (by decide)
  · rw [hr]; exact ht
  · rw [h2 ht] at hg; exact absurd hg (by decide)
  · rw [hr, hasTitle_append]
    simp [hasTitle]


/-! ## Trimming: helper lemmas -/

theorem trimSpace_data (r : String) :
    (strings.TrimSpace r).data =
      ((r.data.dropWhile unicode.IsSpace).reverse.dropWhile unicode.IsSpace).reverse := rfl

/-- The trimmed text is the token `true` exactly when the text is that token between two
runs of white space. -/
theorem trimSpace_eq_true_iff (r : String) :
    strings.TrimSpace r = "true" ↔
      ∃ pre post : List Char, (∀ c ∈ pre, unicode.IsSpace c = true) ∧
        (∀ c ∈ post, unicode.IsSpace c = true) ∧
        r.data = pre ++ ['t', 'r', 'u', 'e'] ++ post := by
  constructor
  · intro h
    have hd : ((r.data.dropWhile unicode.IsSpace).reverse.dropWhile unicode.IsSpace).reverse =
        ['t', 'r', 'u', 'e'] := by
      rw [← trimSpace_data, h]
    refine ⟨r.data.takeWhile unicode.IsSpace,
      ((r.data.dropWhile unicode.IsSpace).reverse.takeWhile unicode.IsSpace).reverse,
      fun c hc => List.mem_takeWhile_imp hc,
      fun c hc => List.mem_takeWhile_imp (List.mem_reverse.1 hc), ?_⟩
    rw [← hd, List.append_assoc, ← List.reverse_append, List.takeWhile_append_dropWhile,
      List.reverse_reverse, List.takeWhile_append_dropWhile]
  · rintro ⟨pre, post, hpre, hpost, hr⟩
    apply String.ext
    rw [trimSpace_data, hr, List.append_assoc, List.dropWhile_append_of_pos hpre]
    have h1 : List.dropWhile unicode.IsSpace (['t', 'r', 'u', 'e'] ++ post) =
        ['t', 'r', 'u', 'e'] ++ post := by
      rw [List.cons_append, List.dropWhile_cons_of_neg (by decide)]
    rw [h1, List.reverse_append,
      List.dropWhile_append_of_pos (fun c hc => hpost c (List.mem_reverse.1 hc))]
    rfl


/-- An issue whose own calls succeed has a reminder with its title at the end of the run. -/
theorem syncLoop_hasTitle (fails : Nat → Bool) (list : String) (pre post : List GitLabIssue)
    (issue : GitLabIssue) (w : World)
    (h1 : fails (syncLoop (World.env fails) list pre w).calls.length = false)
    (h2 : hasTitle (syncLoop (World.env fails) list pre w).reminders (reminderTitle issue) =
        false →
      fails ((syncLoop (World.env fails) list pre w).calls.length + 1) = false) :
    hasTitle (syncLoop (World.env fails) list (pre ++ issue :: post) w).reminders
      (reminderTitle issue) = true := by
  rw [syncLoop_append_world, syncLoop_cons_turn]
  obtain ⟨scripts, added, -, hr, -⟩ := syncLoop_world fails list post
    (World.turn fails list issue (syncLoop (World.env fails) list pre w))
  rw [hr, hasTitle_append, turn_hasTitle fails list issue _ h1 h2]
  rfl

theorem syncLoop_all_titles (list : String) (issues : List GitLabIssue) (w : World)
    (issue : GitLabIssue) (hmem : issue ∈ issues) :
    hasTitle (syncLoop (World.env noFailure) list issues w).reminders (reminderTitle issue) =
      true := by
  obtain ⟨pre, post, e⟩ := List.append_of_mem hmem
  rw [e]
  exact syncLoop_hasTitle noFailure list pre post issue w rfl (fun _ => rfl)

/-- A run over issues whose titles are all in the store adds nothing and makes no `make`
call. -/
theorem syncLoop_nothing_new (list : String) (issues : List GitLabIssue) (w : World)
    (hall : ∀ issue ∈ issues, hasTitle w.reminders (reminderTitle issue) = true) :
    (syncLoop (World.env noFailure) list issues w).reminders = w.reminders ∧
      madeNames ((syncLoop (World.env noFailure) list issues w).calls.drop w.calls.length) =
        [] := by
  obtain ⟨scripts, added, hc, hr, -, -, hnew, hfrom, hmade, -⟩ :=
    syncLoop_world noFailure list issues w
  have hnil : added = [] := by
    cases added with
    | nil => rfl
    | cons r rest =>
      exfalso
      obtain ⟨i, hi, e⟩ := hfrom r (List.mem_cons_self _ _)
      have h1 := hnew r (List.mem_cons_self _ _)
      rw [e] at h1
      rw [hall i hi] at h1
      exact absurd h1 (by decide)
  subst hnil
  refine ⟨by rw [hr, List.append_nil], ?_⟩
  rw [hc, List.drop_left, hmade (fun _ => rfl)]
  rfl

theorem madeNames_count (fails : Nat → Bool) (t : String) :
    ∀ (scripts : List Script) (n : Nat),
      (madeNames scripts).count t =
        (succeededMakes fails n scripts).count t + (failedMakes fails n scripts).count t := by
  intro scripts
  induction scripts with
  | nil => intro n; rfl
  | cons s rest ih =>
    intro n
    simp only [madeNames, succeededMakes, failedMakes]
    cases s.ask with
    | query l nm => exact ih (n + 1)
    | make l nm b =>
      by_cases hf : fails n = true
      · simp only [hf, if_true, List.count_cons, ih (n + 1)]
        omega
      · simp only [hf, Bool.false_eq_true, if_false, List.count_cons, ih (n + 1)]
        omega

theorem failedMakes_of_no_failure (fails : Nat → Bool) (hall : ∀ n, fails n = false) :
    ∀ (scripts : List Script) (n : Nat), failedMakes fails n scripts = [] := by
  intro scripts
  induction scripts with
  | nil => intro n; rfl
  | cons s rest ih =>
    intro n
    simp only [failedMakes]
    cases s.ask with
    | query l nm => exact ih (n + 1)
    | make l nm b => simp [hall n, ih (n + 1)]

theorem nodup_names_append (store added : List Reminder)
    (h1 : (store.map (fun r => r.name)).Nodup) (h2 : (added.map (fun r => r.name)).Nodup)
    (h3 : ∀ r ∈ added, hasTitle store r.name = false) :
    ((store ++ added).map (fun r => r.name)).Nodup := by
  rw [List.map_append, List.nodup_append]
  refine ⟨h1, h2, ?_⟩
  intro t ht1 ht2
  obtain ⟨r, hr, e⟩ := List.mem_map.1 ht2
  have := (hasTitle_eq_false_iff store r.name).1 (h3 r hr)
  rw [e] at this
  exact this ht1

theorem syncIssues_nothing_new (net : Net) (config : Config) (issues : List GitLabIssue)
    (w : World) (hfetch : getAssignedIssues net config = (issues, none))
    (hall : ∀ issue ∈ issues, hasTitle w.reminders (reminderTitle issue) = true) :
    (syncIssues net (World.env noFailure) config w).reminders = w.reminders ∧
      madeNames ((syncIssues net (World.env noFailure) config w).calls.drop w.calls.length) =
        [] := by
  rw [syncIssues_world_fetched net config noFailure issues w hfetch]
  exact syncLoop_nothing_new config.ReminderList issues
    { w with logs := w.logs ++ ["Found " ++ fmt.d issues.length ++ " assigned issues"] } hall

/-! ## Escaping -/

/-- Claim C2: `escapeAppleScriptString s` is `s` with every double quote replaced by the two
characters backslash, double quote, all other characters staying in place and in order; so
every double quote of the result comes right after a backslash; and
`Fix "null pointer" bug` becomes `Fix \"null pointer\" bug`. -/
theorem escape_replaces_every_quote (s : String) :
    (escapeAppleScriptString s).data =
        s.data.flatMap (fun c => if c = '"' then ['\\', '"'] else [c]) ∧
      (∀ pre post : List Char, (escapeAppleScriptString s).data = pre ++ '"' :: post →
        ∃ pre2, pre = pre2 ++ ['\\']) ∧
      escapeAppleScriptString "Fix \"null pointer\" bug" = "Fix \\\"null pointer\\\" bug" := by
  refine ⟨escape_data s, ?_, by decide⟩
  intro pre post h
  rw [escape_data] at h
  exact quote_preceded s.data pre post h

/-- Claim C3, as stated, fails: the title made of a backslash, a double quote and an exclamation
mark escapes to backslash, backslash, quote, exclamation mark; between two quotes the reader
takes the two backslashes for one escaped backslash and closes the literal at the quote that
was meant to be escaped, leaving the exclamation mark outside the literal. -/
theorem literal_closed_early_after_backslash :
    specLexLiteral ('"' :: (escapeAppleScriptString "\\\"!").data ++ ['"']) =
        some (['\\'], ['!', '"']) ∧
      specLexLiteral ('"' :: (escapeAppleScriptString "\\\"!").data ++ ['"']) ≠
        some (("\\\"!" : String).data, []) := by
  constructor <;> decide

/-- Claim C3, amended: for a text `s` and any script text `rest` after it, the literal made of
`escapeAppleScriptString s` between two double quotes is read as denoting `s` and as ending
exactly at the closing quote if and only if `s` contains no backslash. -/
theorem literal_roundtrip_iff_no_backslash (s : String) (rest : List Char) :
    specLexLiteral ('"' :: (escapeAppleScriptString s).data ++ '"' :: rest) =
        some (s.data, rest) ↔ '\\' ∉ s.data := by
  rw [escape_data]
  simp only [specLexLiteral, List.cons_append, if_true]
  exact ⟨no_backslash_of_lex_escaped s.data rest, lex_escaped_of_no_backslash s.data rest⟩

/-- The title `Fix "null pointer" bug`, which has no backslash: its literal is read back as
the title and ends at the closing quote. -/
theorem literal_roundtrip_iff_no_backslash_witness :
    '\\' ∉ ("Fix \"null pointer\" bug" : String).data ∧
      specLexLiteral ('"' :: (escapeAppleScriptString "Fix \"null pointer\" bug").data ++
          '"' :: (")\n" : String).data) =
        some (("Fix \"null pointer\" bug" : String).data, (")\n" : String).data) :=
  ⟨by decide,
    (literal_roundtrip_iff_no_backslash "Fix \"null pointer\" bug" (")\n" : String).data).2
      (by decide)⟩

/-- Claim C4, evaluated at the list name `My "Work" list`: both scripts carry the list name as it
is, its quotes unescaped (the title and the notes are escaped), and the reader of the literal
after `list` stops at the first quote of the name. -/
theorem list_name_interpolated_raw :
    (reminderExistsScript "a \"b\"" "My \"Work\" list").text =
        "\n\t\ttell application \"Reminders\"\n\t\t\tset myList to list \"My \"Work\" list\"" ++
        "\n\t\t\tset matchingReminders to (reminders of myList whose name is \"a \\\"b\\\"\")" ++
        "\n\t\t\tif (count of matchingReminders) > 0 then\n\t\t\t\treturn \"true\"" ++
        "\n\t\t\telse\n\t\t\t\treturn \"false\"\n\t\t\tend if\n\t\tend tell\n\t" ∧
      (createReminderScript "My \"Work\" list" "a \"b\"" "n \"m\"").text =
        "\n\t\ttell application \"Reminders\"\n\t\t\ttell list \"My \"Work\" list\"" ++
        "\n\t\t\t\tmake new reminder with properties " ++
        "\x7bname:\"a \\\"b\\\"\", body:\"n \\\"m\\\"\"\x7d" ++
        "\n\t\t\tend tell\n\t\tend tell\n\t" ∧
      escapeAppleScriptString "My \"Work\" list" = "My \\\"Work\\\" list" ∧
      specLexLiteral ("\"My \"Work\" list\"\n" : String).data =
        some (("My " : String).data, ("Work\" list\"\n" : String).data) := by
  refine ⟨by rfl, by rfl, by decide, by decide⟩

/-- Claim C10: replacing every backslash-quote by a quote in `escapeAppleScriptString s` gives
back `s`, whatever backslashes `s` contains; the escaped text is longer than `s` by the
number of double quotes of `s`; and two different texts never escape to the same text. -/
theorem escape_left_inverse (s : String) :
    strings.ReplaceAll (escapeAppleScriptString s) "\\\"" "\"" = s ∧
      (escapeAppleScriptString s).length = s.length + s.data.count '"' ∧
      (∀ t : String, escapeAppleScriptString s = escapeAppleScriptString t → s = t) := by
  have hne : ("\\\"" : String) ≠ "\"" := by decide
  have hnil : ("\\\"" : String).data ≠ [] := by decide
  have inv : ∀ u : String,
      strings.ReplaceAll (escapeAppleScriptString u) "\\\"" "\"" = u := by
    intro u
    apply String.ext
    simp only [strings.ReplaceAll, if_neg hne, if_neg hnil]
    rw [escape_data]
    exact unescape_escaped u.data
  refine ⟨inv s, ?_, ?_⟩
  · show (escapeAppleScriptString s).data.length = s.data.length + s.data.count '"'
    rw [escape_data]
    exact escaped_length s.data
  · intro t h
    rw [← inv s, h, inv t]

/-! ## Reading the answer of the existence query -/

/-- Claim C5, as stated, fails: when the engine answers `TRUE`, which is the token `true` once
letter case is ignored, `reminderExists` returns false. -/
theorem uppercase_answer_reads_false :
    specIsTrueToken "TRUE" = true ∧
      (reminderExists (constEnv "TRUE") "#42: Fix crash" "Work" ()).1 = (false, none) := by
  constructor <;> decide

/-- Claim C5, amended: when the engine returns the text `r` without error, `reminderExists`
returns no error, and returns true if and only if `r`, trimmed of surrounding white space,
is exactly the lower-case token `true`, that is, `r` is that token between two runs of white
space. -/
theorem exists_answer_exact_token {σ : Type} (env : Env σ) (title list r : String)
    (w w1 : σ)
    (h : env.Tell "Reminders" (reminderExistsScript title list) w = ((r, none), w1)) :
    (reminderExists env title list w).2 = w1 ∧
      (reminderExists env title list w).1.2 = none ∧
      ((reminderExists env title list w).1.1 = true ↔ strings.TrimSpace r = "true") ∧
      ((reminderExists env title list w).1.1 = true ↔
        ∃ pre post : List Char, (∀ c ∈ pre, unicode.IsSpace c = true) ∧
          (∀ c ∈ post, unicode.IsSpace c = true) ∧
          r.data = pre ++ ['t', 'r', 'u', 'e'] ++ post) := by
  have e : reminderExists env title list w =
      ((decide (strings.TrimSpace r = "true"), none), w1) := by
    simp only [reminderExists, h]
  rw [e]
  refine ⟨rfl, rfl, by simp, ?_⟩
  rw [← trimSpace_eq_true_iff]
  simp

/-- An engine answer with white space around the token, read by
`reminderExists`: `" true\n"` gives true. -/
theorem exists_answer_exact_token_witness :
    (constEnv " true\n").Tell "Reminders" (reminderExistsScript "#42: Fix crash" "Work") () =
        ((" true\n", none), ()) ∧
      (reminderExists (constEnv " true\n") "#42: Fix crash" "Work" ()).1.1 = true :=
  ⟨rfl,
    (exists_answer_exact_token (constEnv " true\n") "#42: Fix crash" "Work" " true\n" () ()
      rfl).2.2.1.2 (by decide)⟩

/-! ## The title of a reminder -/

theorem createReminder_calls (fails : Nat → Bool) (issue : GitLabIssue) (list : String)
    (w : World) :
    (createReminder (World.env fails) issue list w).2.calls =
          w.calls ++ [reminderExistsScript (reminderTitle issue) list] ∧
        (createReminder (World.env fails) issue list w).2.reminders = w.reminders
      ∨
      (createReminder (World.env fails) issue list w).2.calls =
          w.calls ++ [reminderExistsScript (reminderTitle issue) list,
            createReminderScript list (reminderTitle issue) (reminderNotes issue)] ∧
        ((createReminder (World.env fails) issue list w).2.reminders = w.reminders ∨
          (createReminder (World.env fails) issue list w).2.reminders =
            w.reminders ++ [⟨reminderTitle issue, reminderNotes issue⟩]) := by
  rw [createReminder_world]
  by_cases hf : fails w.calls.length = true
  · simp [hf]
  · by_cases ht : hasTitle w.reminders (reminderTitle issue) = true
    · simp [hf, ht]
    · by_cases hg : fails (w.calls.length + 1) = true
      · simp [hf, ht, hg]
      · simp [hf, ht, hg]

/-- Claim C6: for an issue with project-local number `N` and title `T`, whatever the store and
the failures of the bridge, `createReminder` asks about the name `#N: T` (decimal `N`) and,
when it goes on to create, creates a reminder of that name with the notes
`Description`, empty line, `URL: WebURL`; nothing else of the issue enters the name.  For
`N = 42` and `T = Fix crash` the name is `#42: Fix crash`. -/
theorem createReminder_uses_derived_title (fails : Nat → Bool) (issue : GitLabIssue)
    (list : String) (w : World) :
    ((createReminder (World.env fails) issue list w).2.calls =
          w.calls ++ [reminderExistsScript ("#" ++ fmt.d issue.IID ++ ": " ++ issue.Title) list] ∧
        (createReminder (World.env fails) issue list w).2.reminders = w.reminders
      ∨
      (createReminder (World.env fails) issue list w).2.calls =
          w.calls ++ [reminderExistsScript ("#" ++ fmt.d issue.IID ++ ": " ++ issue.Title) list,
            createReminderScript list ("#" ++ fmt.d issue.IID ++ ": " ++ issue.Title)
              (issue.Description ++ "\n\nURL: " ++ issue.WebURL)] ∧
        ((createReminder (World.env fails) issue list w).2.reminders = w.reminders ∨
          (createReminder (World.env fails) issue list w).2.reminders =
            w.reminders ++ [⟨"#" ++ fmt.d issue.IID ++ ": " ++ issue.Title,
              issue.Description ++ "\n\nURL: " ++ issue.WebURL⟩])) ∧
      (reminderExistsScript ("#" ++ fmt.d issue.IID ++ ": " ++ issue.Title) list).ask =
        Command.query list ("#" ++ fmt.d issue.IID ++ ": " ++ issue.Title) ∧
      (∀ other : GitLabIssue, other.IID = issue.IID → other.Title = issue.Title →
        queriedNames ((createReminder (World.env fails) other list w).2.calls.drop
          w.calls.length) = ["#" ++ fmt.d issue.IID ++ ": " ++ issue.Title]) ∧
      (createReminder (World.env noFailure) (sampleIssue 101 42 "Fix crash") "Work"
          emptyWorld).2.reminders =
        [⟨"#42: Fix crash", "details\n\nURL: https://gitlab.example/p/-/issues/42"⟩] := by
  refine ⟨createReminder_calls fails issue list w, rfl, ?_, by decide⟩
  intro other h1 h2
  have ht : reminderTitle other = "#" ++ fmt.d issue.IID ++ ": " ++ issue.Title := by
    simp only [reminderTitle, h1, h2]
  rcases createReminder_calls fails other list w with ⟨hc, _⟩ | ⟨hc, _⟩
  · rw [hc, List.drop_left, ht]
    rfl
  · rw [hc, List.drop_left, ht]
    rfl

/-! ## A failed fetch -/

/-- Claim C8: when the tracker answers with a status code other than 200, `getAssignedIssues`
returns no issue and the error `API request failed with status: ` followed by the status
line; `syncIssues` then only logs the fetch error: over any bridge it makes no call at all,
and over the model of the reminders application the record of calls and the store are
unchanged. -/
theorem fetch_abort_on_status (net : Net) (config : Config) (resp : Response)
    (hreq : net.NewRequest "GET" (requestURL config) = none)
    (hdo : net.Do (requestURL config) config.GitLabToken = (resp, none))
    (hstatus : resp.StatusCode ≠ 200) :
    getAssignedIssues net config =
        ([], some ("API request failed with status: " ++ resp.Status)) ∧
      (∀ (σ : Type) (env : Env σ) (w : σ),
        syncIssues net env config w =
          env.Printf ("Error fetching GitLab issues: " ++
            ("API request failed with status: " ++ resp.Status)) w) ∧
      (∀ (fails : Nat → Bool) (w : World),
        (syncIssues net (World.env fails) config w).calls = w.calls ∧
        (syncIssues net (World.env fails) config w).reminders = w.reminders) := by
  have hget : getAssignedIssues net config =
      ([], some ("API request failed with status: " ++ resp.Status)) := by
    simp only [getAssignedIssues, hreq, hdo]
    simp [hstatus]
  refine ⟨hget, ?_, ?_⟩
  · intro σ env w
    exact syncIssues_fetch_error net env config _ _ w hget
  · intro fails w
    rw [syncIssues_fetch_error net _ config _ _ w hget]
    exact ⟨rfl, rfl⟩

/-- A tracker answering `401 Unauthorized`: the fetch
error carries the status line and the pass leaves an empty world without any call. -/
theorem fetch_abort_on_status_witness :
    (sampleNet 401 "401 Unauthorized" sampleBatch).NewRequest "GET" (requestURL sampleConfig) =
        none ∧
      ((401 : Int) ≠ 200) ∧
      getAssignedIssues (sampleNet 401 "401 Unauthorized" sampleBatch) sampleConfig =
        ([], some "API request failed with status: 401 Unauthorized") ∧
      (syncIssues (sampleNet 401 "401 Unauthorized" sampleBatch) (World.env noFailure)
        sampleConfig emptyWorld).calls = [] :=
  ⟨rfl, by decide,
    (fetch_abort_on_status (sampleNet 401 "401 Unauthorized" sampleBatch) sampleConfig
      ⟨401, "401 Unauthorized", ("[...]", none)⟩ rfl rfl (by decide)).1,
    ((fetch_abort_on_status (sampleNet 401 "401 Unauthorized" sampleBatch) sampleConfig
      ⟨401, "401 Unauthorized", ("[...]", none)⟩ rfl rfl (by decide)).2.2 noFailure
      emptyWorld).1⟩

/-! ## The sync pass -/

/-- Claim C1: with every call of the bridge succeeding, for every list of fetched issues and every
initial store, a second run of `syncIssues` right after a first one leaves the store as the
first run left it and sends no `make` command; and the first run has left a reminder for the
title of every fetched issue. -/
theorem sync_twice_same_store (net : Net) (config : Config) (issues : List GitLabIssue)
    (w : World) (hfetch : getAssignedIssues net config = (issues, none)) :
    (syncIssues net (World.env noFailure) config
        (syncIssues net (World.env noFailure) config w)).reminders =
      (syncIssues net (World.env noFailure) config w).reminders ∧
    madeNames ((syncIssues net (World.env noFailure) config
        (syncIssues net (World.env noFailure) config w)).calls.drop
        (syncIssues net (World.env noFailure) config w).calls.length) = [] ∧
    (∀ issue ∈ issues,
      hasTitle (syncIssues net (World.env noFailure) config w).reminders
        (reminderTitle issue) = true) := by
  have hall : ∀ issue ∈ issues,
      hasTitle (syncIssues net (World.env noFailure) config w).reminders
        (reminderTitle issue) = true := by
    intro issue hmem
    rw [syncIssues_world_fetched net config noFailure issues w hfetch]
    exact syncLoop_all_titles _ issues _ issue hmem
  have hsecond := syncIssues_nothing_new net config issues
    (syncIssues net (World.env noFailure) config w) hfetch hall
  exact ⟨hsecond.1, hsecond.2, hall⟩

/-- Two runs over `sampleBatch` from an empty store: the
second run leaves the three reminders of the first. -/
theorem sync_twice_same_store_witness :
    getAssignedIssues (sampleNet 200 "200 OK" sampleBatch) sampleConfig = (sampleBatch, none) ∧
      (syncIssues (sampleNet 200 "200 OK" sampleBatch) (World.env noFailure) sampleConfig
          (syncIssues (sampleNet 200 "200 OK" sampleBatch) (World.env noFailure) sampleConfig
            emptyWorld)).reminders =
        (syncIssues (sampleNet 200 "200 OK" sampleBatch) (World.env noFailure) sampleConfig
          emptyWorld).reminders ∧
      ((syncIssues (sampleNet 200 "200 OK" sampleBatch) (World.env noFailure) sampleConfig
          emptyWorld).reminders.map (fun r => r.name)) =
        ["#1: Fix crash", "#2: Write docs", "#3: Ship"] :=
  ⟨rfl,
    (sync_twice_same_store (sampleNet 200 "200 OK" sampleBatch) sampleConfig sampleBatch
      emptyWorld rfl).1,
    by decide⟩

/-- Claim C7: for every batch of fetched issues and every pattern of failing bridge calls,
`syncIssues` runs to its end and makes one existence query per issue of the batch, in the
order of the batch.  For an issue of the batch, let the world of its turn be the one reached
when the issues before it are done (`syncLoop` over them): the next call is its existence
query and, if that finds nothing, the call after is its creation.  If these calls do not
fail, the store ends with a reminder of the issue's title, and when the title was absent
from the initial store that reminder is among those added by this run. -/
theorem sync_continues_past_failures (net : Net) (config : Config) (fails : Nat → Bool)
    (pre post : List GitLabIssue) (issue : GitLabIssue) (w : World)
    (hfetch : getAssignedIssues net config = (pre ++ issue :: post, none)) :
    queriedNames ((syncIssues net (World.env fails) config w).calls.drop w.calls.length) =
        (pre ++ issue :: post).map reminderTitle ∧
      (fails (syncLoop (World.env fails) config.ReminderList pre w).calls.length = false →
        (hasTitle (syncLoop (World.env fails) config.ReminderList pre w).reminders
            (reminderTitle issue) = false →
          fails ((syncLoop (World.env fails) config.ReminderList pre w).calls.length + 1) =
            false) →
        hasTitle (syncIssues net (World.env fails) config w).reminders (reminderTitle issue) =
            true ∧
          (hasTitle w.reminders (reminderTitle issue) = false →
            hasTitle ((syncIssues net (World.env fails) config w).reminders.drop
              w.reminders.length) (reminderTitle issue) = true)) := by
  rw [syncIssues_world_fetched net config fails _ w hfetch]
  obtain ⟨scripts, added, hc, hr, hq, -⟩ := syncLoop_world fails config.ReminderList
    (pre ++ issue :: post)
    { w with logs := w.logs ++
      ["Found " ++ fmt.d (pre ++ issue :: post).length ++ " assigned issues"] }
  refine ⟨?_, ?_⟩
  · rw [hc]
    show queriedNames (List.drop w.calls.length (w.calls ++ scripts)) = _
    rw [List.drop_left, hq]
  · intro h1 h2
    obtain ⟨er, ec⟩ := syncLoop_logs_irrelevant fails config.ReminderList pre w
      (w.logs ++ ["Found " ++ fmt.d (pre ++ issue :: post).length ++ " assigned issues"])
    have hT := syncLoop_hasTitle fails config.ReminderList pre post issue
      { w with logs := w.logs ++
        ["Found " ++ fmt.d (pre ++ issue :: post).length ++ " assigned issues"] }
      (by rw [ec]; exact h1) (by rw [er, ec]; exact h2)
    refine ⟨hT, ?_⟩
    intro habsent
    rw [hr] at hT ⊢
    change hasTitle (w.reminders ++ added) (reminderTitle issue) = true at hT
    show hasTitle (List.drop w.reminders.length (w.reminders ++ added))
      (reminderTitle issue) = true
    rw [hasTitle_append, habsent] at hT
    rw [List.drop_left]
    simpa using hT

/-- Three issues, the creation failing for the second, seen from the third issue: its calls are the fifth and the sixth,
which do not fail, and the run ends with reminders for the first and the third issue. -/
theorem sync_continues_past_failures_witness :
    getAssignedIssues (sampleNet 200 "200 OK" sampleBatch) sampleConfig =
        ([sampleIssue 101 1 "Fix crash", sampleIssue 102 2 "Write docs"] ++
          sampleIssue 103 3 "Ship" :: [], none) ∧
      hasTitle (syncIssues (sampleNet 200 "200 OK" sampleBatch) (World.env fourthCallFails)
        sampleConfig emptyWorld).reminders "#3: Ship" = true ∧
      (syncIssues (sampleNet 200 "200 OK" sampleBatch) (World.env fourthCallFails)
        sampleConfig emptyWorld).reminders =
        [⟨"#1: Fix crash", "details\n\nURL: https://gitlab.example/p/-/issues/1"⟩,
         ⟨"#3: Ship", "details\n\nURL: https://gitlab.example/p/-/issues/3"⟩] ∧
      (syncIssues (sampleNet 200 "200 OK" sampleBatch) (World.env fourthCallFails)
        sampleConfig emptyWorld).logs =
        ["Found 3 assigned issues", "Created reminder for issue #1: Fix crash",
         "Error creating reminder for issue #2: execution error",
         "Created reminder for issue #3: Ship"] :=
  ⟨rfl,
    ((sync_continues_past_failures (sampleNet 200 "200 OK" sampleBatch) sampleConfig
      fourthCallFails [sampleIssue 101 1 "Fix crash", sampleIssue 102 2 "Write docs"] []
      (sampleIssue 103 3 "Ship") emptyWorld rfl).2 (by decide) (fun _ => by decide)).1,
    by decide, by decide⟩

/-- Claim C9, as stated, fails: over two issues with the same derived title, when the
creation for the first one fails, the existence check of the second still finds nothing and
a second `make` command for the same title is sent. -/
theorem two_makes_after_failed_make :
    getAssignedIssues (sampleNet 200 "200 OK" sampleTwins) sampleConfig = (sampleTwins, none) ∧
      madeNames ((syncIssues (sampleNet 200 "200 OK" sampleTwins) (World.env secondCallFails)
        sampleConfig emptyWorld).calls.drop emptyWorld.calls.length) =
        ["#1: Fix crash", "#1: Fix crash"] ∧
      ¬ (madeNames ((syncIssues (sampleNet 200 "200 OK" sampleTwins)
        (World.env secondCallFails) sampleConfig emptyWorld).calls.drop
        emptyWorld.calls.length)).Nodup := by
  refine ⟨by decide, by decide, by decide⟩

/-- Claim C9, amended: for every tracker answer, every initial store and every pattern of
failing bridge calls, one run of `syncIssues` keeps the initial store as the beginning of
the final one (nothing is edited or removed); the reminders it adds are those of its `make`
commands that did not fail and have pairwise different names, so at most one reminder is
created for any title; the `make` commands sent for a title are at most one more than those
that failed for it, hence at most one when no creation fails; no `make` command is sent for
a title already in the store; and a store without two reminders of the same name has none
afterwards. -/
theorem one_created_reminder_per_title (net : Net) (config : Config) (fails : Nat → Bool)
    (w : World) :
    (syncIssues net (World.env fails) config w).reminders =
        w.reminders ++ (syncIssues net (World.env fails) config w).reminders.drop
          w.reminders.length ∧
      ((syncIssues net (World.env fails) config w).reminders.drop w.reminders.length).map
          (fun r => r.name) =
        succeededMakes fails w.calls.length
          ((syncIssues net (World.env fails) config w).calls.drop w.calls.length) ∧
      (((syncIssues net (World.env fails) config w).reminders.drop w.reminders.length).map
          (fun r => r.name)).Nodup ∧
      (∀ t : String,
        (madeNames ((syncIssues net (World.env fails) config w).calls.drop
            w.calls.length)).count t ≤
          1 + (failedMakes fails w.calls.length
            ((syncIssues net (World.env fails) config w).calls.drop w.calls.length)).count t) ∧
      (failedMakes fails w.calls.length
            ((syncIssues net (World.env fails) config w).calls.drop w.calls.length) = [] →
        (madeNames ((syncIssues net (World.env fails) config w).calls.drop
          w.calls.length)).Nodup) ∧
      ((∀ n, fails n = false) →
        (madeNames ((syncIssues net (World.env fails) config w).calls.drop
          w.calls.length)).Nodup) ∧
      (∀ t ∈ madeNames ((syncIssues net (World.env fails) config w).calls.drop
          w.calls.length), hasTitle w.reminders t = false) ∧
      ((w.reminders.map (fun r => r.name)).Nodup →
        ((syncIssues net (World.env fails) config w).reminders.map
          (fun r => r.name)).Nodup) := by
  have key : ∃ scripts added,
      (syncIssues net (World.env fails) config w).calls = w.calls ++ scripts ∧
      (syncIssues net (World.env fails) config w).reminders = w.reminders ++ added ∧
      (added.map (fun r => r.name)).Nodup ∧
      (∀ r ∈ added, hasTitle w.reminders r.name = false) ∧
      added.map (fun r => r.name) = succeededMakes fails w.calls.length scripts ∧
      (∀ t ∈ madeNames scripts, hasTitle w.reminders t = false) := by
    rcases hres : getAssignedIssues net config with ⟨l, _ | err⟩
    · rw [syncIssues_world_fetched net config fails l w hres]
      obtain ⟨scripts, added, hc, hr, -, hn, hnew, -, -, hs, hm⟩ :=
        syncLoop_world fails config.ReminderList l
          { w with logs := w.logs ++ ["Found " ++ fmt.d l.length ++ " assigned issues"] }
      exact ⟨scripts, added, hc, hr, hn, hnew, hs, hm⟩
    · rw [syncIssues_fetch_error net _ config l err w hres]
      exact ⟨[], [], by simp [World.env], by simp [World.env], by simp, by simp, rfl,
        by simp [madeNames]⟩
  obtain ⟨scripts, added, hc, hr, hn, hnew, hs, hm⟩ := key
  have hcount : ∀ t : String,
      (madeNames scripts).count t ≤ 1 + (failedMakes fails w.calls.length scripts).count t := by
    intro t
    rw [madeNames_count fails t scripts w.calls.length, ← hs]
    have := List.nodup_iff_count_le_one.1 hn t
    omega
  have hnofail : failedMakes fails w.calls.length scripts = [] →
      (madeNames scripts).Nodup := by
    intro he
    rw [List.nodup_iff_count_le_one]
    intro t
    have := hcount t
    rw [he] at this
    simpa using this
  rw [hc, hr, List.drop_left, List.drop_left]
  refine ⟨rfl, hs, hn, hcount, hnofail, ?_, hm, ?_⟩
  · intro hall
    exact hnofail (failedMakes_of_no_failure fails hall scripts w.calls.length)
  · intro hnd
    exact nodup_names_append w.reminders added hnd hn hnew

/-- Two issues of different projects with the same number and title, the creation for the
first one failing: two `make` commands, one of them failed, and one reminder; without any
failure, one `make` command and one reminder. -/
theorem one_created_reminder_per_title_witness :
    (madeNames ((syncIssues (sampleNet 200 "200 OK" sampleTwins) (World.env secondCallFails)
          sampleConfig emptyWorld).calls.drop emptyWorld.calls.length)).count
          "#1: Fix crash" ≤
        1 + (failedMakes secondCallFails emptyWorld.calls.length
          ((syncIssues (sampleNet 200 "200 OK" sampleTwins) (World.env secondCallFails)
            sampleConfig emptyWorld).calls.drop emptyWorld.calls.length)).count
          "#1: Fix crash" ∧
      failedMakes secondCallFails emptyWorld.calls.length
          ((syncIssues (sampleNet 200 "200 OK" sampleTwins) (World.env secondCallFails)
            sampleConfig emptyWorld).calls.drop emptyWorld.calls.length) =
        ["#1: Fix crash"] ∧
      (syncIssues (sampleNet 200 "200 OK" sampleTwins) (World.env secondCallFails)
        sampleConfig emptyWorld).reminders =
        [⟨"#1: Fix crash", "details\n\nURL: https://gitlab.example/p/-/issues/1"⟩] ∧
      (madeNames ((syncIssues (sampleNet 200 "200 OK" sampleTwins) (World.env noFailure)
        sampleConfig emptyWorld).calls.drop emptyWorld.calls.length)).Nodup ∧
      madeNames ((syncIssues (sampleNet 200 "200 OK" sampleTwins) (World.env noFailure)
        sampleConfig emptyWorld).calls.drop emptyWorld.calls.length) = ["#1: Fix crash"] :=
  ⟨(one_created_reminder_per_title (sampleNet 200 "200 OK" sampleTwins) sampleConfig
      secondCallFails emptyWorld).2.2.2.1 "#1: Fix crash",
    by decide, by decide,
    (one_created_reminder_per_title (sampleNet 200 "200 OK" sampleTwins) sampleConfig
      noFailure emptyWorld).2.2.2.2.2.1 (fun _ => rfl),
    by decide⟩

end GitlabReminders
